import Mathlib

/-!
Verification development for the py2neo in-memory property-graph data model
(`py2neo/data.py`): Subgraph set algebra, Walkable traversal sequences,
Node/Relationship equality, hashing and lazy label/property refresh, and the
`walk` concatenation algorithm.

Python objects are embedded shallowly:
* an object's reference identity (`a is b`, `id(a)`) is represented by an
  `oid : Nat` field, unique per object;
* the process-unique uuid token generated in `Entity.__init__` is an
  `uuid : Nat` field;
* `None`-able attributes (`graph`, `identity`) are `Option`s;
* Python `frozenset`s of entities are represented by duplicate-free lists,
  with membership, deduplication and the set operations performed with the
  entities' `__eq__` (as CPython does, assuming hash-consistency);
* fallible constructors (raising `ValueError`) return `Except String`.
-/

namespace Py2neo

/-- The owning graph reference held by a bound entity.  The remote `Graph`
class is outside `data.py`; per the spec it is only used as a value compared
for equality and hashed through its `database` and `name` members, which are
modelled as opaque hash stand-ins. -/
structure Graph where
  database : Nat
  name : Nat
deriving DecidableEq, Repr

/-- Shallow embedding of a `Node` object: object identity `oid`, the
generated `__uuid__` token, the optional remote binding (`graph`,
`identity`), the local label set `_labels`, the property store, and the two
`_stale` markers (`"labels"`/`"properties"` membership in `_stale`). -/
structure PyNode where
  oid : Nat
  uuid : Nat
  graph : Option Graph
  identity : Option Nat
  labels : List String
  props : List (String × Int)
  staleLabels : Bool
  staleProps : Bool
deriving DecidableEq, Repr

/-- Shallow embedding of a `Relationship` object.  `tname` is the name of
the dynamically created type variant (`Relationship.type(name)` returns one
class object per name, so the variant is determined by its name).  `startN`
and `endN` are the two endpoint nodes of the walkable sequence
`(start, self, end)`. -/
structure PyRel where
  oid : Nat
  uuid : Nat
  graph : Option Graph
  identity : Option Nat
  tname : String
  startN : PyNode
  endN : PyNode
  props : List (String × Int)
deriving DecidableEq, Repr

/-- An element of a walkable sequence: a node or a relationship. -/
inductive PyEntity where
  | node (n : PyNode)
  | rel (r : PyRel)
deriving DecidableEq, Repr

instance : Inhabited PyEntity := ⟨PyEntity.node ⟨0, 0, none, none, [], [], false, false⟩⟩

/-- Python `dict` equality on property stores (`dict(self) == dict(other)`):
same keys with equal values on both sides. -/
def dictEq (p q : List (String × Int)) : Bool :=
  p.all (fun kv => q.lookup kv.1 == some kv.2) && q.all (fun kv => p.lookup kv.1 == some kv.2)

/-- `Node.__eq__`: `self is other` (same `oid`); otherwise `False` when any
of the two `graph`/`identity` attributes is `None`; otherwise both operands
are `Node`s and the bindings are compared (`graph == graph` and
`identity == identity`). -/
def nodeEq (a b : PyNode) : Bool :=
  if a.oid = b.oid then true
  else if a.graph = none ∨ b.graph = none ∨ a.identity = none ∨ b.identity = none then false
  else decide (a.graph = b.graph ∧ a.identity = b.identity)

/-- `Relationship.__eq__`: `self is other` (same `oid`); else, when any of
the two `graph`/`identity` attributes is `None`, the structural comparison
`type(self) is type(other) and list(self.nodes) == list(other.nodes) and
dict(self) == dict(other)`; else comparison of the remote bindings. -/
def relEq (r s : PyRel) : Bool :=
  if r.oid = s.oid then true
  else if r.graph = none ∨ s.graph = none ∨ r.identity = none ∨ s.identity = none then
    decide (r.tname = s.tname) && nodeEq r.startN s.startN && nodeEq r.endN s.endN &&
      dictEq r.props s.props
  else decide (r.graph = s.graph ∧ r.identity = s.identity)

/-- `__eq__` across sequence elements.  A `Node` compared with a
`Relationship` is never equal: `Node.__eq__` ends in an `issubclass(_, Node)`
check and `Relationship.__eq__` in `type(self) is type(other)` /
`issubclass(_, Relationship)` checks, all of which fail across kinds. -/
def entityEq : PyEntity → PyEntity → Bool
  | PyEntity.node a, PyEntity.node b => nodeEq a b
  | PyEntity.rel a, PyEntity.rel b => relEq a b
  | _, _ => false

/-- Python `x in s` membership test for a collection with element equality
`e`. -/
def memBy (e : α → α → Bool) (l : List α) (x : α) : Bool :=
  l.any (fun y => e y x)

/-- Adding one element to a Python set: kept unchanged when an equal element
is already present, appended otherwise. -/
def setInsert (e : α → α → Bool) (xs : List α) (y : α) : List α :=
  if memBy e xs y then xs else xs ++ [y]

/-- Python set union `xs | ys` (all elements of `ys` inserted into `xs`). -/
def setUnion (e : α → α → Bool) (xs ys : List α) : List α :=
  ys.foldl (setInsert e) xs

/-- `frozenset(l)`: deduplication by the element equality, keeping first
occurrences. -/
def setDedup (e : α → α → Bool) (l : List α) : List α :=
  setUnion e [] l

/-- Python set difference `xs - ys`. -/
def setDiff (e : α → α → Bool) (xs ys : List α) : List α :=
  xs.filter (fun x => !(memBy e ys x))

/-- Python set intersection `xs & ys`. -/
def setInter (e : α → α → Bool) (xs ys : List α) : List α :=
  xs.filter (fun x => memBy e ys x)

/-- Python frozenset equality: equal sizes and mutual membership. -/
def setEqBy (e : α → α → Bool) (xs ys : List α) : Bool :=
  (xs.length == ys.length) && xs.all (fun x => memBy e ys x) && ys.all (fun y => memBy e xs y)

/-- `r.nodes` for a sequence element, as used by the closure step of
`Subgraph.__init__`: a relationship contributes its two endpoints, a node
(whose walkable sequence is `(self,)`) contributes itself. -/
def entNodes : PyEntity → List PyEntity
  | PyEntity.node n => [PyEntity.node n]
  | PyEntity.rel r => [PyEntity.node r.startN, PyEntity.node r.endN]

/-- A `Subgraph`: the two frozensets `__nodes` and `__relationships`,
represented as duplicate-free lists. -/
structure PySubgraph where
  nodes : List PyEntity
  rels : List PyEntity
deriving Repr

/-- The node frozenset computed by `Subgraph.__init__`:
`frozenset(nodes)` unioned with the endpoint nodes of every member of
`frozenset(relationships)`. -/
def closedNodes (ns rs : List PyEntity) : List PyEntity :=
  setUnion entityEq (setDedup entityEq ns) ((setDedup entityEq rs).flatMap entNodes)

/-- `Subgraph.__init__(nodes, relationships)`: dedup both arguments, union
the relationship endpoints into the node set, and raise
`ValueError("Subgraphs must contain at least one node")` when the resulting
node set is empty. -/
def mkSubgraph (ns rs : List PyEntity) : Except String PySubgraph :=
  if closedNodes ns rs = [] then Except.error "Subgraphs must contain at least one node"
  else Except.ok ⟨closedNodes ns rs, setDedup entityEq rs⟩

/-- `Subgraph.__or__`: node-set union and relationship-set union, passed to
the constructor. -/
def sgUnion (s t : PySubgraph) : Except String PySubgraph :=
  mkSubgraph (setUnion entityEq s.nodes t.nodes) (setUnion entityEq s.rels t.rels)

/-- `Subgraph.__and__`: node-set intersection and relationship-set
intersection, passed to the constructor. -/
def sgInter (s t : PySubgraph) : Except String PySubgraph :=
  mkSubgraph (setInter entityEq s.nodes t.nodes) (setInter entityEq s.rels t.rels)

/-- The relationship set `r = set(self.relationships) - set(other.relationships)`
computed by `Subgraph.__sub__`. -/
def sgSubRels (s t : PySubgraph) : List PyEntity :=
  setDiff entityEq s.rels t.rels

/-- The node set `(self.nodes - other.nodes) | union(rel.nodes for rel in r)`
computed by `Subgraph.__sub__`. -/
def sgSubNodes (s t : PySubgraph) : List PyEntity :=
  setUnion entityEq (setDiff entityEq s.nodes t.nodes) ((sgSubRels s t).flatMap entNodes)

/-- `Subgraph.__sub__`. -/
def sgSub (s t : PySubgraph) : Except String PySubgraph :=
  mkSubgraph (sgSubNodes s t) (sgSubRels s t)

/-- The relationship symmetric difference computed by `Subgraph.__xor__`. -/
def sgXorRels (s t : PySubgraph) : List PyEntity :=
  setDiff entityEq s.rels t.rels ++ setDiff entityEq t.rels s.rels

/-- The node set computed by `Subgraph.__xor__`: node symmetric difference
unioned with the endpoints of the surviving relationships. -/
def sgXorNodes (s t : PySubgraph) : List PyEntity :=
  setUnion entityEq (setDiff entityEq s.nodes t.nodes ++ setDiff entityEq t.nodes s.nodes)
    ((sgXorRels s t).flatMap entNodes)

/-- `Subgraph.__xor__`. -/
def sgXor (s t : PySubgraph) : Except String PySubgraph :=
  mkSubgraph (sgXorNodes s t) (sgXorRels s t)

/-- `Subgraph.__eq__` on plain subgraphs: equal order, equal size, equal
node frozensets and equal relationship frozensets. -/
def subgraphEq (s t : PySubgraph) : Bool :=
  (s.nodes.length == t.nodes.length) && (s.rels.length == t.rels.length) &&
    setEqBy entityEq s.nodes t.nodes && setEqBy entityEq s.rels t.rels

/-- The result of a subgraph-producing operation respects the closure
invariant: every endpoint node of every member of the relationship set is a
member of the node set, and the node set is non-empty. -/
def sgClosedOk (res : Except String PySubgraph) : Prop :=
  ∀ s, res = Except.ok s →
    (∀ ent ∈ s.rels, ∀ x ∈ entNodes ent, memBy entityEq s.nodes x = true) ∧ s.nodes ≠ []

/-- The operation raised `ValueError`. -/
def sgFails (res : Except String PySubgraph) : Prop :=
  ∃ m, res = Except.error m

/-- A `Walkable`: the stored traversal tuple `__sequence` (its `Subgraph`
base is derived from it, see `wSubgraph`). -/
structure Walkable where
  seq : List PyEntity
deriving DecidableEq, Repr

/-- `l[0::2]`: the elements at even positions. -/
def evens : List α → List α
  | [] => []
  | [x] => [x]
  | x :: _ :: rest => x :: evens rest

/-- `l[1::2]`: the elements at odd positions. -/
def odds : List α → List α
  | [] => []
  | [_] => []
  | _ :: y :: rest => y :: odds rest

/-- `Walkable.start_node` (`self.__sequence[0]`). -/
def wStart (w : Walkable) : PyEntity :=
  w.seq.headD default

/-- `Walkable.end_node` (`self.__sequence[-1]`). -/
def wEnd (w : Walkable) : PyEntity :=
  w.seq.getLastD default

/-- `Walkable.__len__`: `(len(self.__sequence) - 1) // 2`. -/
def wLen (w : Walkable) : Nat :=
  (w.seq.length - 1) / 2

/-- The `Subgraph` base initialised by `Walkable.__init__`:
`Subgraph.__init__(self, sequence[0::2], sequence[1::2])`. -/
def wSubgraph (w : Walkable) : Except String PySubgraph :=
  mkSubgraph (evens w.seq) (odds w.seq)

/-- `Walkable.__init__(iterable)`: store the sequence; initialising the
`Subgraph` base may raise `ValueError`. -/
def mkWalkable (l : List PyEntity) : Except String Walkable :=
  match mkSubgraph (evens l) (odds l) with
  | Except.ok _ => Except.ok ⟨l⟩
  | Except.error m => Except.error m

/-- The loop of `walk` over the second and later walkables: `acc` holds the
entities yielded so far and `e` the running `end_node`.  A walkable whose
`start_node` equals `e` is appended forward, one whose `end_node` equals `e`
is appended reversed — in both cases without its first element (the loop
yields only for `i > 0`) — and otherwise
`ValueError("Cannot append walkable ... to node ...")` is raised. -/
def walkRest (acc : List PyEntity) (e : PyEntity) : List Walkable → Except String (List PyEntity)
  | [] => Except.ok acc
  | w :: ws =>
    if entityEq e (wStart w) then walkRest (acc ++ w.seq.drop 1) (wEnd w) ws
    else if entityEq e (wEnd w) then walkRest (acc ++ w.seq.reverse.drop 1) (wStart w) ws
    else Except.error "Cannot append walkable to node"

/-- `walk(*walkables)`, materialised: no argument yields nothing; otherwise
the first walkable's full sequence is yielded and the rest are appended by
`walkRest`. -/
def pyWalk : List Walkable → Except String (List PyEntity)
  | [] => Except.ok []
  | w :: ws => walkRest w.seq (wEnd w) ws

/-- One step of the walk concatenation as the spec words it: compare the
running end node with the next walkable's `start_node`/`end_node`, append
its sequence forward or reversed with the first element skipped, advance the
running end node, or fail with the disconnected-walk error. -/
def walkStepSpec (st : List PyEntity × PyEntity) (w : Walkable) :
    Except String (List PyEntity × PyEntity) :=
  if entityEq st.2 (wStart w) then Except.ok (st.1 ++ w.seq.tail, wEnd w)
  else if entityEq st.2 (wEnd w) then Except.ok (st.1 ++ w.seq.reverse.tail, wStart w)
  else Except.error "Cannot append walkable to node"

/-- The spec's description of `walk`: seed with the first walkable's full
sequence and its end node as the running end, then fold `walkStepSpec` over
the remaining walkables. -/
def walkSpecDesc : List Walkable → Except String (List PyEntity)
  | [] => Except.ok []
  | w :: ws => (List.foldlM walkStepSpec (w.seq, wEnd w) ws).map (fun p => p.1)

/-- Pointwise Python tuple equality (`tuple == tuple`): equal lengths and
elementwise `__eq__`. -/
def listEqBy (e : α → α → Bool) : List α → List α → Bool
  | [], [] => true
  | x :: xs, y :: ys => e x y && listEqBy e xs ys
  | _, _ => false

/-- `Walkable.__eq__`: `tuple(walk(self)) == tuple(walk(other))`. -/
def walkableEq (u v : Walkable) : Bool :=
  match pyWalk [u], pyWalk [v] with
  | Except.ok a, Except.ok b => listEqBy entityEq a b
  | _, _ => false

/-- The element is a node. -/
def isNodeE : PyEntity → Bool
  | PyEntity.node _ => true
  | PyEntity.rel _ => false

/-- The element is a relationship. -/
def isRelE : PyEntity → Bool
  | PyEntity.node _ => false
  | PyEntity.rel _ => true

/-- A well-formed walkable sequence: odd length, strictly alternating
node, relationship, node, …, node. -/
def wfChain : List PyEntity → Bool
  | [PyEntity.node _] => true
  | PyEntity.node _ :: PyEntity.rel _ :: rest => wfChain rest
  | _ => false

/-- Reading position `j` of a list after Python's negative-index
normalisation: the element when `0 <= j < len`, `IndexError` otherwise. -/
def pyIndexAt (l : List PyEntity) (j : Int) : Except String PyEntity :=
  if 0 ≤ j ∧ j < (l.length : Int) then Except.ok (l.getD j.toNat default)
  else Except.error "IndexError"

/-- Python list indexing `l[i]`: a negative index counts from the end;
out-of-range raises `IndexError`. -/
def pyIndex (l : List PyEntity) (i : Int) : Except String PyEntity :=
  pyIndexAt l (if i < 0 then i + l.length else i)

/-- Python slice-bound clamping for a list of length `n`: a negative bound
counts from the end, and everything is clamped into `[0, n]`. -/
def pyClamp (n x : Int) : Int :=
  if x < 0 then max 0 (x + n) else min x n

/-- Python list slicing `l[a:b]` with unit step: a missing start defaults to
`0`, a missing stop to the length, and both bounds are clamped by
`pyClamp`. -/
def pySlice (l : List α) (a b : Option Int) : List α :=
  (l.drop (pyClamp l.length (a.getD 0)).toNat).take
    (pyClamp l.length (b.getD l.length) - pyClamp l.length (a.getD 0)).toNat

/-- `Walkable.__getitem__` with an integer index: a negative index reads
`self.__sequence[2 * index]`, a non-negative one `self.__sequence[2 * index + 1]`. -/
def pyGetItem (w : Walkable) (i : Int) : Except String PyEntity :=
  if i < 0 then pyIndex w.seq (2 * i) else pyIndex w.seq (2 * i + 1)

/-- `Walkable.__getitem__` with a slice: negative bounds are shifted by
`len(self)`, the start is doubled, the stop doubled plus one, and a new
`Walkable` is built over the sequence slice. -/
def pyGetSlice (w : Walkable) (start stop : Option Int) : Except String Walkable :=
  mkWalkable (pySlice w.seq
    (start.map (fun x => 2 * (if x < 0 then x + (wLen w : Int) else x)))
    (stop.map (fun x => 2 * (if x < 0 then x + (wLen w : Int) else x) + 1)))

/-- Modelled from the spec: the owning graph's `pull` collaborator (the
remote side lives outside `data.py`).  It holds the canonical remote labels
and properties for each bound identity. -/
structure Remote where
  labelsOf : Nat → List String
  propsOf : Nat → List (String × Int)

/-- Modelled from the spec: `graph.pull(node)` refreshes the node's labels
and properties from the remote copy and clears the stale markers.  An entity
without a remote identity is left untouched. -/
def pullNode (rm : Remote) (n : PyNode) : PyNode :=
  match n.identity with
  | some i =>
      { n with labels := rm.labelsOf i, props := rm.propsOf i,
               staleLabels := false, staleProps := false }
  | none => n

/-- `Node.__ensure_labels`: pull when bound (`graph` and `identity` set) and
`"labels"` is in `_stale`. -/
def ensureLabels (rm : Remote) (n : PyNode) : PyNode :=
  if n.graph ≠ none ∧ n.identity ≠ none ∧ n.staleLabels = true then pullNode rm n else n

/-- `Node.__getitem__`: pull when bound and `"properties"` is stale, then
read the property store. -/
def nodeGetItem (rm : Remote) (n : PyNode) (key : String) : PyNode × Option Int :=
  let m := if n.graph ≠ none ∧ n.identity ≠ none ∧ n.staleProps = true then pullNode rm n else n
  (m, m.props.lookup key)

/-- `Node.labels`: ensure freshness, then return the label set. -/
def nodeLabels (rm : Remote) (n : PyNode) : PyNode × List String :=
  let m := ensureLabels rm n
  (m, m.labels)

/-- `Node.has_label`: ensure freshness, then test membership. -/
def nodeHasLabel (rm : Remote) (n : PyNode) (lbl : String) : PyNode × Bool :=
  let m := ensureLabels rm n
  (m, m.labels.contains lbl)

/-- `set.add` on the label set. -/
def labelAdd (ls : List String) (l : String) : List String :=
  if ls.contains l then ls else ls ++ [l]

/-- `Node.add_label`: ensure freshness, then add locally. -/
def nodeAddLabel (rm : Remote) (n : PyNode) (lbl : String) : PyNode :=
  let m := ensureLabels rm n
  { m with labels := labelAdd m.labels lbl }

/-- `Node.remove_label`: ensure freshness, then discard locally. -/
def nodeRemoveLabel (rm : Remote) (n : PyNode) (lbl : String) : PyNode :=
  let m := ensureLabels rm n
  { m with labels := m.labels.filter (fun x => x != lbl) }

/-- `Node.clear_labels`: ensure freshness, then clear. -/
def nodeClearLabels (rm : Remote) (n : PyNode) : PyNode :=
  let m := ensureLabels rm n
  { m with labels := [] }

/-- `Node.update_labels`: ensure freshness, then union in the new labels. -/
def nodeUpdateLabels (rm : Remote) (n : PyNode) (ls : List String) : PyNode :=
  let m := ensureLabels rm n
  { m with labels := ls.foldl labelAdd m.labels }

/-- Model of `hash` on the type-variant class object: within one process the
variant class is determined by its name, so its hash is a function of the
name. -/
def strHash (s : String) : Nat :=
  s.foldl (fun a c => a * 31 + c.toNat) 7

/-- Model of Python's tuple hash: a concrete combiner over the member
hashes. -/
def pyTupleHash (hs : List Nat) : Nat :=
  hs.foldl (fun a h => (a * 1000003) ^^^ h) 5381

/-- `Node.__hash__`: when `self.graph and self.identity` is truthy (graph
present and identity present and non-zero),
`hash(graph.database) ^ hash(graph.name) ^ hash(identity)`; otherwise
`hash(id(self))`. -/
def nodeHash (n : PyNode) : Nat :=
  match n.graph, n.identity with
  | some g, some i => if i ≠ 0 then g.database ^^^ g.name ^^^ i else n.oid
  | _, _ => n.oid

/-- `Relationship.__hash__`: `hash(self.nodes) ^ hash(type(self))`, where
`self.nodes` is the endpoint tuple `(start_node, end_node)`. -/
def relHash (r : PyRel) : Nat :=
  pyTupleHash [nodeHash r.startN, nodeHash r.endN] ^^^ strHash r.tname

/-! ### Concrete objects used by witnesses and counterexamples -/

/-- A concrete remote graph reference. -/
def gA : Graph := ⟨11, 12⟩

/-- An unbound node. -/
def nA : PyNode := ⟨1, 101, none, none, [], [], false, false⟩

/-- Another unbound node. -/
def nB : PyNode := ⟨2, 102, none, none, [], [], false, false⟩

/-- An unbound `KNOWS` relationship from `nA` to `nB`. -/
def rAB : PyRel := ⟨3, 103, none, none, "KNOWS", nA, nB, []⟩

/-- A second, distinct unbound `KNOWS` relationship from `nA` to `nB` with
the same type and properties as `rAB`. -/
def rAB2 : PyRel := ⟨4, 104, none, none, "KNOWS", nA, nB, []⟩

/-- The walkable `(nA)-[rAB]->(nB)`. -/
def wAB : Walkable := ⟨[PyEntity.node nA, PyEntity.rel rAB, PyEntity.node nB]⟩

/-- The reverse traversal of `wAB`. -/
def wBA : Walkable := ⟨[PyEntity.node nB, PyEntity.rel rAB, PyEntity.node nA]⟩

/-- The subgraph of `wAB`. -/
def sgAB : PySubgraph := ⟨[PyEntity.node nA, PyEntity.node nB], [PyEntity.rel rAB]⟩

/-- The subgraph of `wBA`. -/
def sgBA : PySubgraph := ⟨[PyEntity.node nB, PyEntity.node nA], [PyEntity.rel rAB]⟩

/-- A subgraph of two disconnected nodes and no relationship. -/
def sgNN : PySubgraph := ⟨[PyEntity.node nA, PyEntity.node nB], []⟩

/-- A bound node: graph `gA`, identity 7. -/
def bn1 : PyNode := ⟨5, 105, some gA, some 7, ["X"], [("a", 1)], false, false⟩

/-- A distinct bound node with the same binding as `bn1` but different local
caches. -/
def bn2 : PyNode := ⟨6, 106, some gA, some 7, ["Y"], [("b", 2)], true, true⟩

/-- A bound node whose labels and properties are both stale. -/
def sn : PyNode := ⟨7, 107, some gA, some 9, ["Old"], [("p", 1)], true, true⟩

/-- A concrete remote state. -/
def rm0 : Remote := ⟨fun _ => ["Fresh"], fun _ => [("p", 42)]⟩

/-! ### Helper lemmas -/

theorem nodeEq_refl (n : PyNode) : nodeEq n n = true := by
  simp [nodeEq]

theorem relEq_refl (r : PyRel) : relEq r r = true := by
  simp [relEq]

theorem entityEq_refl (x : PyEntity) : entityEq x x = true := by
  cases x with
  | node n => simpa [entityEq] using nodeEq_refl n
  | rel r => simpa [entityEq] using relEq_refl r

theorem memBy_of_mem {l : List PyEntity} {x : PyEntity} (h : x ∈ l) :
    memBy entityEq l x = true := by
  simp only [memBy, List.any_eq_true]
  exact ⟨x, h, entityEq_refl x⟩

theorem memBy_setInsert {e : α → α → Bool} {xs : List α} {x : α} (y : α)
    (h : memBy e xs x = true) : memBy e (setInsert e xs y) x = true := by
  unfold setInsert
  split
  · exact h
  · simp only [memBy, List.any_append] at *
    simp [h]

theorem memBy_setUnion_left {e : α → α → Bool} {xs : List α} {x : α} (ys : List α)
    (h : memBy e xs x = true) : memBy e (setUnion e xs ys) x = true := by
  induction ys generalizing xs with
  | nil => exact h
  | cons y ys ih =>
      simp only [setUnion, List.foldl_cons] at *
      exact ih (memBy_setInsert y h)

theorem memBy_setInsert_self {xs : List PyEntity} (y : PyEntity) :
    memBy entityEq (setInsert entityEq xs y) y = true := by
  unfold setInsert
  split
  · assumption
  · exact memBy_of_mem (by simp)

theorem memBy_setUnion_right {ys : List PyEntity} {y : PyEntity} (xs : List PyEntity)
    (h : y ∈ ys) : memBy entityEq (setUnion entityEq xs ys) y = true := by
  induction ys generalizing xs with
  | nil => cases h
  | cons a ys ih =>
      simp only [setUnion, List.foldl_cons]
      rcases List.mem_cons.mp h with rfl | hmem
      · exact memBy_setUnion_left ys (memBy_setInsert_self y)
      · exact ih (setInsert entityEq xs a) hmem

theorem setInsert_ne_nil {e : α → α → Bool} {xs : List α} (y : α) (h : xs ≠ []) :
    setInsert e xs y ≠ [] := by
  unfold setInsert
  split
  · exact h
  · simp

theorem setUnion_ne_nil {e : α → α → Bool} {xs : List α} (ys : List α) (h : xs ≠ []) :
    setUnion e xs ys ≠ [] := by
  induction ys generalizing xs with
  | nil => exact h
  | cons y ys ih =>
      simp only [setUnion, List.foldl_cons]
      exact ih (setInsert_ne_nil y h)

theorem setDiff_self (l : List PyEntity) : setDiff entityEq l l = [] := by
  unfold setDiff
  rw [List.filter_eq_nil_iff]
  intro x hx
  simp [memBy_of_mem hx]

theorem mkSubgraph_ok {ns rs : List PyEntity} {s : PySubgraph}
    (h : mkSubgraph ns rs = Except.ok s) :
    s.nodes = closedNodes ns rs ∧ s.rels = setDedup entityEq rs ∧ closedNodes ns rs ≠ [] := by
  unfold mkSubgraph at h
  split at h
  · cases h
  · rename_i hne
    cases h
    exact ⟨rfl, rfl, hne⟩

theorem mkSubgraph_spec (ns rs : List PyEntity) :
    sgClosedOk (mkSubgraph ns rs) ∧ (sgFails (mkSubgraph ns rs) ↔ closedNodes ns rs = []) := by
  constructor
  · intro s hs
    obtain ⟨hn, hr, hne⟩ := mkSubgraph_ok hs
    constructor
    · intro ent hent x hx
      rw [hn]
      unfold closedNodes
      refine memBy_setUnion_right _ ?_
      rw [hr] at hent
      exact List.mem_flatMap.mpr ⟨ent, hent, hx⟩
    · rw [hn]; exact hne
  · unfold mkSubgraph
    split
    · rename_i hnil
      exact ⟨fun _ => hnil, fun _ => ⟨_, rfl⟩⟩
    · rename_i hne
      constructor
      · rintro ⟨m, hm⟩; cases hm
      · intro h; exact absurd h hne

theorem listEqBy_refl (l : List PyEntity) : listEqBy entityEq l l = true := by
  induction l with
  | nil => rfl
  | cons x xs ih => simp [listEqBy, entityEq_refl, ih]

/-! ### Claim theorems -/

/-- C1: every Subgraph produced by the constructor or by `|`, `&`, `-`, `^`
contains both endpoint nodes of every member of its relationship set, the
operation raises `ValueError` exactly when the node set after closure is
empty, and a Subgraph with an empty node set is never returned. -/
theorem subgraph_ops_closure_C1 (ns rs : List PyEntity) (s t : PySubgraph) :
    (sgClosedOk (mkSubgraph ns rs) ∧ (sgFails (mkSubgraph ns rs) ↔ closedNodes ns rs = [])) ∧
    (sgClosedOk (sgUnion s t) ∧
      (sgFails (sgUnion s t) ↔
        closedNodes (setUnion entityEq s.nodes t.nodes) (setUnion entityEq s.rels t.rels) = [])) ∧
    (sgClosedOk (sgInter s t) ∧
      (sgFails (sgInter s t) ↔
        closedNodes (setInter entityEq s.nodes t.nodes) (setInter entityEq s.rels t.rels) = [])) ∧
    (sgClosedOk (sgSub s t) ∧
      (sgFails (sgSub s t) ↔ closedNodes (sgSubNodes s t) (sgSubRels s t) = [])) ∧
    (sgClosedOk (sgXor s t) ∧
      (sgFails (sgXor s t) ↔ closedNodes (sgXorNodes s t) (sgXorRels s t) = [])) :=
  ⟨mkSubgraph_spec ns rs, mkSubgraph_spec _ _, mkSubgraph_spec _ _,
    mkSubgraph_spec _ _, mkSubgraph_spec _ _⟩

/-- C1 witness: on the concrete subgraph built from node `nA` and the
relationship `rAB`, both endpoints are members of the node set, the node set
is non-empty, and the failure condition of an intersection is equivalent to
the emptiness of its closed node set. -/
theorem subgraph_ops_closure_C1_witness :
    memBy entityEq sgAB.nodes (PyEntity.node nA) = true ∧
    memBy entityEq sgAB.nodes (PyEntity.node nB) = true ∧
    sgAB.nodes ≠ [] ∧
    (sgFails (sgInter sgAB sgNN) ↔
      closedNodes (setInter entityEq sgAB.nodes sgNN.nodes)
        (setInter entityEq sgAB.rels sgNN.rels) = []) := by
  have h := subgraph_ops_closure_C1 [PyEntity.node nA] [PyEntity.rel rAB] sgAB sgNN
  have h1 := (h.1.1 sgAB rfl).1 (PyEntity.rel rAB) (by decide)
  exact ⟨h1 (PyEntity.node nA) (by decide), h1 (PyEntity.node nB) (by decide),
    (h.1.1 sgAB rfl).2, h.2.2.1.2⟩

/-- C3: two unbound Nodes (graph or identity unset on either side) are equal
exactly when they are the same object (same `oid`); two bound Nodes with
equal graph and equal identity are equal regardless of object identity and
of their local label/property caches. -/
theorem node_equality_C3 :
    (∀ a b : PyNode,
      (a.graph = none ∨ a.identity = none ∨ b.graph = none ∨ b.identity = none) →
      (nodeEq a b = true ↔ a.oid = b.oid)) ∧
    (∀ a b : PyNode, a.graph ≠ none → a.graph = b.graph →
      a.identity ≠ none → a.identity = b.identity → nodeEq a b = true) := by
  constructor
  · intro a b hun
    unfold nodeEq
    by_cases hoid : a.oid = b.oid
    · simp [hoid]
    · have hcond : a.graph = none ∨ b.graph = none ∨ a.identity = none ∨ b.identity = none := by
        tauto
      simp [hoid, hcond]
  · intro a b hg hgb hi hib
    unfold nodeEq
    by_cases hoid : a.oid = b.oid
    · simp [hoid]
    · have hbg : b.graph ≠ none := hgb ▸ hg
      have hbi : b.identity ≠ none := hib ▸ hi
      have hcond : ¬(a.graph = none ∨ b.graph = none ∨ a.identity = none ∨ b.identity = none) := by
        simp [hg, hbg, hi, hbi]
      simp only [hoid, hcond, if_false, ite_false]
      simp [hgb, hib, hbg, hbi]

/-- C3 witness: the two distinct unbound nodes `nA`, `nB` are equal iff they
have the same `oid`, and the two bound nodes `bn1`, `bn2` (same graph and
identity, different caches and object identities) are equal. -/
theorem node_equality_C3_witness :
    (nodeEq nA nB = true ↔ nA.oid = nB.oid) ∧ nodeEq bn1 bn2 = true :=
  ⟨node_equality_C3.1 nA nB (Or.inl rfl),
    node_equality_C3.2 bn1 bn2 (by decide) rfl (by decide) rfl⟩

/-- C6 counterexample: `sgNN` is a constructible subgraph with two nodes and
no relationships, for which the claim predicts that `A - A` succeeds, yet
the difference raises the empty-node-set `ValueError`. -/
theorem sub_self_counterexample_C6 :
    mkSubgraph [PyEntity.node nA, PyEntity.node nB] [] = Except.ok sgNN ∧
    sgNN.nodes.length = 2 ∧ sgNN.rels.length = 0 ∧
    sgSub sgNN sgNN = Except.error "Subgraphs must contain at least one node" :=
  ⟨rfl, rfl, rfl, rfl⟩

/-- C6 (amended): `A - A` always fails construction with the empty-node-set
`ValueError`, for every subgraph `A`: the relationship difference and the
node difference are both empty, so the re-closed node set is empty. -/
theorem sub_self_always_fails_C6 (s : PySubgraph) :
    sgSub s s = Except.error "Subgraphs must contain at least one node" := by
  have hr : sgSubRels s s = [] := setDiff_self s.rels
  have hn : sgSubNodes s s = [] := by
    unfold sgSubNodes
    rw [hr, setDiff_self s.nodes]
    rfl
  unfold sgSub
  rw [hr, hn]
  rfl

/-- C9 counterexample: `rAB` and `rAB2` are distinct unbound relationship
objects carrying different generated tokens, yet they are equal. -/
theorem unbound_rel_eq_counterexample_C9 :
    relEq rAB rAB2 = true ∧ rAB.uuid ≠ rAB2.uuid ∧ rAB.oid ≠ rAB2.oid ∧
    rAB.graph = none ∧ rAB.identity = none ∧ rAB2.graph = none ∧ rAB2.identity = none := by
  decide

/-- C9 (amended): before binding, a Node's equality is object identity
(equivalently token identity, given that tokens are process-unique per
object), but an unbound Relationship compares structurally — same type
variant, pairwise-equal endpoints and equal properties — so two distinct
unbound Relationships with different tokens can be equal; the token also
never enters a Relationship's hash. -/
theorem unbound_equality_C9 :
    (∀ a b : PyNode, (a.uuid = b.uuid ↔ a.oid = b.oid) →
      (a.graph = none ∨ a.identity = none ∨ b.graph = none ∨ b.identity = none) →
      (nodeEq a b = true ↔ a.uuid = b.uuid)) ∧
    (∀ r s : PyRel,
      (r.graph = none ∨ s.graph = none ∨ r.identity = none ∨ s.identity = none) →
      (relEq r s = true ↔ (r.oid = s.oid ∨
        (r.tname = s.tname ∧ nodeEq r.startN s.startN = true ∧
          nodeEq r.endN s.endN = true ∧ dictEq r.props s.props = true)))) ∧
    (∀ (r : PyRel) (u : Nat), relHash { r with uuid := u } = relHash r) := by
  refine ⟨?_, ?_, ?_⟩
  · intro a b htok hun
    rw [node_equality_C3.1 a b hun]
    exact htok.symm
  · intro r s hun
    unfold relEq
    by_cases hoid : r.oid = s.oid
    · simp [hoid]
    · simp [hoid, hun, and_assoc]
  · intro r u
    rfl

/-- C9 witness: instantiating the amended statement on the concrete
entities: `nA`/`nB` satisfy the node clause and `rAB`/`rAB2` the
relationship clause. -/
theorem unbound_equality_C9_witness :
    (nodeEq nA nB = true ↔ nA.uuid = nB.uuid) ∧
    (relEq rAB rAB2 = true ↔ (rAB.oid = rAB2.oid ∨
      (rAB.tname = rAB2.tname ∧ nodeEq rAB.startN rAB2.startN = true ∧
        nodeEq rAB.endN rAB2.endN = true ∧ dictEq rAB.props rAB2.props = true))) :=
  ⟨unbound_equality_C9.1 nA nB (by decide) (Or.inl rfl),
    unbound_equality_C9.2.1 rAB rAB2 (Or.inl rfl)⟩

/-- C8: on a bound node with a stale field group, every read and mutation of
that group pulls first, operates on the pulled state, and the pulled state's
stale flag is cleared. -/
theorem node_stale_pull_C8 (rm : Remote) (n : PyNode) (key lbl : String) (ls : List String)
    (hg : n.graph ≠ none) (hi : n.identity ≠ none) :
    (n.staleProps = true →
      nodeGetItem rm n key = (pullNode rm n, (pullNode rm n).props.lookup key) ∧
      (nodeGetItem rm n key).1.staleProps = false) ∧
    (n.staleLabels = true →
      nodeLabels rm n = (pullNode rm n, (pullNode rm n).labels) ∧
      nodeHasLabel rm n lbl = (pullNode rm n, (pullNode rm n).labels.contains lbl) ∧
      nodeAddLabel rm n lbl =
        { pullNode rm n with labels := labelAdd (pullNode rm n).labels lbl } ∧
      nodeRemoveLabel rm n lbl =
        { pullNode rm n with labels := (pullNode rm n).labels.filter (fun x => x != lbl) } ∧
      nodeClearLabels rm n = { pullNode rm n with labels := [] } ∧
      nodeUpdateLabels rm n ls =
        { pullNode rm n with labels := ls.foldl labelAdd (pullNode rm n).labels } ∧
      (nodeLabels rm n).1.staleLabels = false ∧ (nodeLabels rm n).1.staleProps = false) := by
  obtain ⟨i, hid⟩ := Option.ne_none_iff_exists'.mp hi
  have hsl : (pullNode rm n).staleLabels = false := by simp [pullNode, hid]
  have hsp : (pullNode rm n).staleProps = false := by simp [pullNode, hid]
  constructor
  · intro hp
    have hcond : n.graph ≠ none ∧ n.identity ≠ none ∧ n.staleProps = true := ⟨hg, hi, hp⟩
    unfold nodeGetItem
    rw [if_pos hcond]
    exact ⟨rfl, hsp⟩
  · intro hl
    have hens : ensureLabels rm n = pullNode rm n := by
      unfold ensureLabels
      rw [if_pos ⟨hg, hi, hl⟩]
    refine ⟨?_, ?_, ?_, ?_, ?_, ?_, ?_, ?_⟩ <;>
      simp only [nodeLabels, nodeHasLabel, nodeAddLabel, nodeRemoveLabel, nodeClearLabels,
        nodeUpdateLabels, hens, hsl, hsp]

/-- C8 witness: the concrete bound stale node `sn` pulled against the
remote `rm0`: the property read and the label read both go through the
pulled state, whose stale flags are cleared. -/
theorem node_stale_pull_C8_witness :
    nodeGetItem rm0 sn "p" = (pullNode rm0 sn, (pullNode rm0 sn).props.lookup "p") ∧
    (nodeGetItem rm0 sn "p").1.staleProps = false ∧
    nodeLabels rm0 sn = (pullNode rm0 sn, (pullNode rm0 sn).labels) ∧
    (nodeLabels rm0 sn).1.staleLabels = false ∧
    nodeAddLabel rm0 sn "L" =
      { pullNode rm0 sn with labels := labelAdd (pullNode rm0 sn).labels "L" } := by
  have h := node_stale_pull_C8 rm0 sn "p" "L" ["M"] (by decide) (by decide)
  have hp := h.1 rfl
  have hl := h.2 rfl
  exact ⟨hp.1, hp.2, hl.1, hl.2.2.2.2.2.2.1, hl.2.2.1⟩

theorem oddsLength (l : List α) : (odds l).length = l.length / 2 := by
  induction l using odds.induct with
  | case1 => simp [odds]
  | case2 x => simp [odds]
  | case3 x y rest ih =>
      simp only [odds, List.length_cons, ih]
      omega

theorem oddsGetD (l : List α) : ∀ (n : Nat) (d : α), (odds l).getD n d = l.getD (2 * n + 1) d := by
  induction l using odds.induct with
  | case1 => intro n d; simp [odds]
  | case2 x =>
      intro n d
      simp [odds, List.getD]
  | case3 x y rest ih =>
      intro n d
      cases n with
      | zero => simp [odds]
      | succ m =>
          simp only [odds, List.getD_cons_succ]
          rw [show 2 * (m + 1) = (2 * m + 1) + 1 by ring, List.getD_cons_succ]
          exact ih m d

theorem wfChain_length_odd : ∀ l : List PyEntity, wfChain l = true → l.length % 2 = 1
  | [PyEntity.node _], _ => rfl
  | PyEntity.node _ :: PyEntity.rel _ :: rest, h => by
      have ih := wfChain_length_odd rest (by simpa [wfChain] using h)
      simp only [List.length_cons]
      omega
  | [], h => by simp [wfChain] at h
  | [PyEntity.rel _], h => by simp [wfChain] at h
  | PyEntity.node _ :: PyEntity.node _ :: _, h => by simp [wfChain] at h
  | PyEntity.rel _ :: _ :: _, h => by simp [wfChain] at h

theorem wfChain_odds_rel : ∀ l : List PyEntity, wfChain l = true →
    ∀ x ∈ odds l, isRelE x = true
  | [PyEntity.node _], _ => by intro x hx; simp [odds] at hx
  | PyEntity.node _ :: PyEntity.rel r :: rest, h => by
      intro x hx
      simp only [odds] at hx
      rcases List.mem_cons.mp hx with rfl | hx'
      · rfl
      · exact wfChain_odds_rel rest (by simpa [wfChain] using h) x hx'
  | [], h => by simp [wfChain] at h
  | [PyEntity.rel _], h => by simp [wfChain] at h
  | PyEntity.node _ :: PyEntity.node _ :: _, h => by simp [wfChain] at h
  | PyEntity.rel _ :: _ :: _, h => by simp [wfChain] at h

theorem odds_getD_rel {l : List PyEntity} (h : wfChain l = true) {n : Nat}
    (hn : n < (odds l).length) : isRelE ((odds l).getD n default) = true := by
  rw [List.getD_eq_getElem _ _ hn]
  exact wfChain_odds_rel l h _ (List.getElem_mem hn)

/-- C10: a Relationship's hash is always the hash of its endpoint tuple
XORed with the hash of its type variant; its own `graph`/`identity` binding
never influences it — unlike a Node, whose hash becomes graph-and-identity
based once bound (with a truthy identity) and is `hash(id(self))` while
unbound. -/
theorem relationship_hash_C10 :
    (∀ r : PyRel,
      relHash r = pyTupleHash [nodeHash r.startN, nodeHash r.endN] ^^^ strHash r.tname) ∧
    (∀ (r : PyRel) (g : Option Graph) (i : Option Nat),
      relHash { r with graph := g, identity := i } = relHash r) ∧
    (∀ (n : PyNode) (g : Graph) (i : Nat), i ≠ 0 →
      nodeHash { n with graph := some g, identity := some i } =
        g.database ^^^ g.name ^^^ i) ∧
    (∀ n : PyNode, n.graph = none ∨ n.identity = none ∨ n.identity = some 0 →
      nodeHash n = n.oid) := by
  refine ⟨fun r => rfl, fun r g i => rfl, ?_, ?_⟩
  · intro n g i hi
    simp [nodeHash, hi]
  · intro n h
    unfold nodeHash
    rcases h with h | h | h
    · rw [h]
    · rw [h]; cases n.graph <;> rfl
    · rw [h]; cases n.graph <;> simp

/-- The loop of `walk` agrees with the spec-worded fold. -/
theorem walkRest_eq_foldlM (ws : List Walkable) (acc : List PyEntity) (e : PyEntity) :
    walkRest acc e ws = (List.foldlM walkStepSpec (acc, e) ws).map (fun p => p.1) := by
  induction ws generalizing acc e with
  | nil => rfl
  | cons w ws ih =>
      simp only [walkRest, walkStepSpec, List.foldlM_cons]
      by_cases h1 : entityEq e (wStart w) = true
      · rw [if_pos h1, if_pos h1, List.drop_one]
        rw [ih]
        rfl
      · rw [if_neg h1, if_neg h1]
        by_cases h2 : entityEq e (wEnd w) = true
        · rw [if_pos h2, if_pos h2, List.drop_one]
          rw [ih]
          rfl
        · rw [if_neg h2, if_neg h2]
          rfl

/-- C2: the materialised `walk` is exactly the algorithm the spec describes:
the first walkable's full sequence is emitted, and each subsequent walkable
is appended forward when the running end equals its start node, reversed
when it equals its end node (skipping the first element of the possibly
reversed sequence in both cases, so the junction node appears once), and
otherwise the `DisconnectedWalkError` (`"Cannot append walkable to node"`)
is raised. -/
theorem walk_concatenation_C2 (ws : List Walkable) : pyWalk ws = walkSpecDesc ws := by
  cases ws with
  | nil => rfl
  | cons w ws => exact walkRest_eq_foldlM ws w.seq (wEnd w)

theorem mkSubgraph_ok_of_ne {ns rs : List PyEntity} (h : closedNodes ns rs ≠ []) :
    mkSubgraph ns rs = Except.ok ⟨closedNodes ns rs, setDedup entityEq rs⟩ := by
  unfold mkSubgraph
  rw [if_neg h]

theorem setDedup_ne_nil {e : α → α → Bool} (x : α) (xs : List α) :
    setDedup e (x :: xs) ≠ [] := by
  unfold setDedup setUnion
  simp only [List.foldl_cons]
  have hx : setInsert e [] x = [x] := by simp [setInsert, memBy]
  rw [hx]
  exact setUnion_ne_nil xs (by simp)

theorem evens_ne_nil {l : List α} (h : l ≠ []) : evens l ≠ [] := by
  cases l with
  | nil => exact absurd rfl h
  | cons x xs =>
      cases xs with
      | nil => simp [evens]
      | cons y rest => simp [evens]

theorem mkWalkable_ok {l : List PyEntity} (h : l ≠ []) : mkWalkable l = Except.ok ⟨l⟩ := by
  have hne : closedNodes (evens l) (odds l) ≠ [] := by
    unfold closedNodes
    obtain ⟨x, xs, hxs⟩ := List.exists_cons_of_ne_nil (evens_ne_nil h)
    rw [hxs]
    exact setUnion_ne_nil _ (setDedup_ne_nil x xs)
  unfold mkWalkable
  rw [mkSubgraph_ok_of_ne hne]

/-- C5: round-trip — materialising `walk(w)` returns exactly `w`'s sequence,
rebuilding a Walkable from it succeeds and yields `w` back, and the rebuilt
walkable is `==`-equal to `w`. -/
theorem walk_roundtrip_C5 (w : Walkable) (h : w.seq ≠ []) :
    pyWalk [w] = Except.ok w.seq ∧ mkWalkable w.seq = Except.ok w ∧
    walkableEq w w = true := by
  refine ⟨rfl, ?_, ?_⟩
  · rw [mkWalkable_ok h]
  · exact listEqBy_refl w.seq

/-- C5 witness: the round-trip instantiated on the concrete walkable
`wAB`. -/
theorem walk_roundtrip_C5_witness :
    pyWalk [wAB] = Except.ok wAB.seq ∧ mkWalkable wAB.seq = Except.ok wAB ∧
    walkableEq wAB wAB = true :=
  walk_roundtrip_C5 wAB (by decide)

theorem setEqBy_of_perm {xs ys : List PyEntity} (h : xs.Perm ys) :
    setEqBy entityEq xs ys = true := by
  unfold setEqBy
  simp only [Bool.and_eq_true, beq_iff_eq, List.all_eq_true]
  exact ⟨⟨h.length_eq, fun x hx => memBy_of_mem (h.mem_iff.mp hx)⟩,
    fun y hy => memBy_of_mem (h.mem_iff.mpr hy)⟩

/-- C4: Walkable equality is order-sensitive while the derived Subgraph
view's equality is set-based: two walkables over the same node set and
relationship set (the underlying frozensets are permutations of each other)
whose traversal sequences differ pointwise are `==`-unequal as Walkables,
while their Subgraph views are `==`-equal. -/
theorem walkable_order_sensitivity_C4 (u v : Walkable) (su sv : PySubgraph)
    (_hu : wSubgraph u = Except.ok su) (_hv : wSubgraph v = Except.ok sv)
    (hpn : su.nodes.Perm sv.nodes) (hpr : su.rels.Perm sv.rels)
    (hneq : listEqBy entityEq u.seq v.seq = false) :
    walkableEq u v = false ∧ subgraphEq su sv = true := by
  refine ⟨hneq, ?_⟩
  unfold subgraphEq
  simp [hpn.length_eq, hpr.length_eq, setEqBy_of_perm hpn, setEqBy_of_perm hpr]

/-- C4 witness: the walk `wAB` and its reverse `wBA` have permuted node and
relationship frozensets, are Walkable-unequal, and Subgraph-equal. -/
theorem walkable_order_sensitivity_C4_witness :
    walkableEq wAB wBA = false ∧ subgraphEq sgAB sgBA = true :=
  walkable_order_sensitivity_C4 wAB wBA sgAB sgBA rfl rfl
    (by decide) (by decide) (by decide)

/-- C10 witness: a binding added to `rAB` leaves its hash unchanged, while
the bound node hash is the graph-based XOR and the unbound one is the object
id. -/
theorem relationship_hash_C10_witness :
    relHash { rAB with graph := some gA, identity := some 42 } = relHash rAB ∧
    nodeHash { nA with graph := some gA, identity := some 9 } =
      gA.database ^^^ gA.name ^^^ 9 ∧
    nodeHash nA = nA.oid :=
  ⟨relationship_hash_C10.2.1 rAB (some gA) (some 42),
    relationship_hash_C10.2.2.1 nA gA 9 (by decide),
    relationship_hash_C10.2.2.2 nA (Or.inl rfl)⟩

theorem wfChain_len {w : Walkable} (h : wfChain w.seq = true) :
    w.seq.length = 2 * wLen w + 1 := by
  have := wfChain_length_odd w.seq h
  unfold wLen
  omega

/-- C7 counterexample: on the walkable `(nA)-[rAB]->(nB)`, the negative
index `-1` reads `sequence[-2]`, which is the relationship `rAB`, not a
node. -/
theorem negative_index_counterexample_C7 :
    pyGetItem wAB (-1) = Except.ok (PyEntity.rel rAB) ∧
    isNodeE (PyEntity.rel rAB) = false :=
  ⟨rfl, rfl⟩

/-- C7 (amended): for a well-formed walkable with `k` relationships,
`w[i]` with `0 ≤ i < k` is the `i`-th relationship; `w[i]` with a negative
in-range `i` reads `sequence[2*i]`, which under Python negative indexing is
the `(k+i)`-th relationship (an odd sequence position), not a node; and
`w[start:stop]` (after adding `len(w)` to negative bounds, with in-range
normalised bounds) is a new Walkable over
`sequence[2*start : 2*stop + 1]`. -/
theorem walkable_getitem_C7 (w : Walkable) (hwf : wfChain w.seq = true) :
    (∀ i : Int, 0 ≤ i → i < (wLen w : Int) →
      pyGetItem w i = Except.ok ((odds w.seq).getD i.toNat default) ∧
      isRelE ((odds w.seq).getD i.toNat default) = true) ∧
    (∀ i : Int, i < 0 → -(wLen w : Int) ≤ i →
      pyGetItem w i = Except.ok ((odds w.seq).getD ((wLen w : Int) + i).toNat default) ∧
      isRelE ((odds w.seq).getD ((wLen w : Int) + i).toNat default) = true) ∧
    (∀ a b a' b' : Int,
      a' = (if a < 0 then a + (wLen w : Int) else a) →
      b' = (if b < 0 then b + (wLen w : Int) else b) →
      0 ≤ a' → a' ≤ b' → b' ≤ (wLen w : Int) →
      pyGetSlice w (some a) (some b) =
        Except.ok ⟨(w.seq.drop (2 * a').toNat).take (2 * (b' - a') + 1).toNat⟩) := by
  have hL : w.seq.length = 2 * wLen w + 1 := wfChain_len hwf
  have holen : (odds w.seq).length = wLen w := by
    rw [oddsLength]
    omega
  refine ⟨?_, ?_, ?_⟩
  · intro i h0 hik
    have h1 : ¬ i < 0 := by omega
    have h2 : ¬ (2 * i + 1 : Int) < 0 := by omega
    have h3 : (0 : Int) ≤ 2 * i + 1 ∧ (2 * i + 1 : Int) < (w.seq.length : Int) := by
      constructor
      · omega
      · omega
    constructor
    · unfold pyGetItem pyIndex pyIndexAt
      rw [if_neg h1, if_neg h2, if_pos h3]
      congr 1
      rw [oddsGetD]
      congr 1
      omega
    · apply odds_getD_rel hwf
      rw [holen]
      omega
  · intro i hi hki
    have h2 : (2 * i : Int) < 0 := by omega
    have h3 : (0 : Int) ≤ 2 * i + (w.seq.length : Int) ∧
        (2 * i + (w.seq.length : Int)) < (w.seq.length : Int) := by
      constructor
      · omega
      · omega
    constructor
    · unfold pyGetItem pyIndex pyIndexAt
      rw [if_pos hi, if_pos h2, if_pos h3]
      congr 1
      rw [oddsGetD]
      congr 1
      omega
    · apply odds_getD_rel hwf
      rw [holen]
      omega
  · intro a b a' b' ha hb h0 hab hbk
    unfold pyGetSlice pySlice
    simp only [Option.map_some', Option.getD_some]
    rw [← ha, ← hb]
    have hca : pyClamp (w.seq.length : Int) (2 * a') = 2 * a' := by
      unfold pyClamp
      rw [if_neg (by omega), min_eq_left (by omega)]
    have hcb : pyClamp (w.seq.length : Int) (2 * b' + 1) = 2 * b' + 1 := by
      unfold pyClamp
      rw [if_neg (by omega), min_eq_left (by omega)]
    rw [hca, hcb]
    have htk : (2 * b' + 1 - 2 * a').toNat = (2 * (b' - a') + 1).toNat := by omega
    rw [htk]
    apply mkWalkable_ok
    apply List.ne_nil_of_length_pos
    rw [List.length_take, List.length_drop]
    omega

/-- C7 witness: on the concrete walkable `wAB`, index `0` and index `-1`
both return the relationship `rAB`, and the slice `[0:1]` rebuilds `wAB`
itself. -/
theorem walkable_getitem_C7_witness :
    pyGetItem wAB 0 = Except.ok (PyEntity.rel rAB) ∧
    pyGetItem wAB (-1) = Except.ok (PyEntity.rel rAB) ∧
    pyGetSlice wAB (some 0) (some 1) = Except.ok wAB := by
  have h := walkable_getitem_C7 wAB (by decide)
  have h1 := (h.1 0 (by decide) (by decide)).1
  have h2 := (h.2.1 (-1) (by decide) (by decide)).1
  have h3 := h.2.2 0 1 0 1 (by decide) (by decide) (by decide) (by decide) (by decide)
  refine ⟨?_, ?_, ?_⟩
  · rw [h1]; rfl
  · rw [h2]; rfl
  · rw [h3]; rfl

end Py2neo
